import Mathlib

/-!
Verification development for the e-ink clock / menu system
(`eink_clock.py`).  The Python source is shallowly embedded: JSON scalars
and documents become the inductive `JVal`; a Python `dict` becomes an
insertion-ordered association list with unique keys, manipulated only
through `dictGet` / `dictSet` / `dictUpdate`, which reproduce the
semantics of `d.get`, `d[k] = v` and `d.update`; the stores' methods
become pure functions from store state to store state; the keyboard
events decoded by `KeyboardInput._read_keys` become the inductive `Key`.
File contents are modelled as the parsed JSON value that was written
(`json.dump` followed by `json.load` is treated as the identity on the
values the program writes).
-/

/-- A JSON value, as produced by `json.load`.  JSON numbers written by this
program are integers, so numbers are modelled as `Int`. -/
inductive JVal where
  | jnull : JVal
  | jb : Bool → JVal
  | ji : Int → JVal
  | js : String → JVal
  | jarr : List JVal → JVal
  | jobj : List (String × JVal) → JVal

/-- A Python `dict` with string keys: an insertion-ordered association list
whose keys are kept unique by `dictSet`. -/
abbrev Dict := List (String × JVal)

/-- `d.get(k)`: the value at the first (unique) occurrence of `k`. -/
def dictGet : Dict → String → Option JVal
  | [], _ => none
  | (k', v) :: rest, k => if k' = k then some v else dictGet rest k

/-- `d[k] = v`: replace the value at `k` in place, or append a new entry. -/
def dictSet : Dict → String → JVal → Dict
  | [], k, v => [(k, v)]
  | (k', v') :: rest, k, v =>
      if k' = k then (k', v) :: rest else (k', v') :: dictSet rest k v

/-- `d.update(other)`: assign every key/value pair of `other`, left to
right (so a later duplicate key wins, as in Python). -/
def dictUpdate (d : Dict) (kvs : List (String × JVal)) : Dict :=
  kvs.foldl (fun acc kv => dictSet acc kv.1 kv.2) d

/-- The key set of a dict, in insertion order. -/
def dictKeys (d : Dict) : List String := d.map Prod.fst

/-- The default settings literal of `SettingsManager._load_settings`
(`eink_clock.py` lines 150-158). -/
def loadDefaults : Dict :=
  [("dark_mode", JVal.jb true),
   ("clock_format", JVal.ji 12),
   ("date_format", JVal.js "long"),
   ("refresh_mode", JVal.js "partial"),
   ("auto_sleep", JVal.ji 0),
   ("show_seconds", JVal.jb false),
   ("zip_code", JVal.js "")]

/-- The fresh default literal that `SettingsManager.reset_to_defaults`
assigns (lines 186-194); textually a second copy of the same values. -/
def resetDefaults : Dict :=
  [("dark_mode", JVal.jb true),
   ("clock_format", JVal.ji 12),
   ("date_format", JVal.js "long"),
   ("refresh_mode", JVal.js "partial"),
   ("auto_sleep", JVal.ji 0),
   ("show_seconds", JVal.jb false),
   ("zip_code", JVal.js "")]

/-- What the settings file looks like when `_load_settings` runs: absent,
unreadable (open or `json.load` raises), or some parsed JSON document. -/
inductive FileState where
  | missing : FileState
  | unreadable : FileState
  | content : JVal → FileState

/-- `SettingsManager._load_settings`: start from the defaults; if the file
exists and parses to an object, `defaults.update(loaded)`; any failure is
swallowed by the bare `except` and the defaults are returned.  (CPython's
`dict.update` would also accept a JSON array of pairs and could stop
half-way on a malformed element; every such path only adds or overwrites
keys, so the key-set facts proved below are unaffected.) -/
def loadSettings : FileState → Dict
  | FileState.missing => loadDefaults
  | FileState.unreadable => loadDefaults
  | FileState.content j =>
      match j with
      | JVal.jobj kvs => dictUpdate loadDefaults kvs
      | _ => loadDefaults

/-- `SettingsManager.get_setting(key, default)`:
`self.settings.get(key, default)`. -/
def getSetting (d : Dict) (key : String) (dflt : JVal) : JVal :=
  (dictGet d key).getD dflt

/-- `SettingsManager.set_setting(key, value)`: `self.settings[key] = value`
followed by `_save_settings` (which rewrites the whole dict to disk and
does not change the in-memory map). -/
def setSetting (d : Dict) (key : String) (v : JVal) : Dict :=
  dictSet d key v

/-- `SettingsManager.reset_to_defaults`: discard the current map and
install the fresh default literal, then save. -/
def resetToDefaults (_d : Dict) : Dict :=
  resetDefaults

/-- A mutation of the Settings Store observable on the in-memory map. -/
inductive SettingsOp where
  | setOp : String → JVal → SettingsOp
  | resetOp : SettingsOp

/-- Apply one settings mutation. -/
def applySettingsOp (d : Dict) : SettingsOp → Dict
  | SettingsOp.setOp k v => setSetting d k v
  | SettingsOp.resetOp => resetToDefaults d

/-- Apply a sequence of settings mutations, oldest first. -/
def runSettingsOps (d : Dict) (ops : List SettingsOp) : Dict :=
  ops.foldl applySettingsOp d

/-- Python truthiness of a JSON value (`bool(v)`). -/
def truthy : JVal → Bool
  | JVal.jnull => false
  | JVal.jb b => b
  | JVal.ji n => n != 0
  | JVal.js s => s != ""
  | JVal.jarr xs => !xs.isEmpty
  | JVal.jobj kvs => !kvs.isEmpty

/-- Python `not v`, as stored back by the boolean toggles. -/
def pyNot (v : JVal) : JVal :=
  JVal.jb (!(truthy v))

/-- Python `v == n` for an integer literal `n` (`True == 1` holds because
`bool` is a subtype of `int`; values of other types compare unequal). -/
def pyEqInt (v : JVal) (n : Int) : Bool :=
  match v with
  | JVal.ji m => m == n
  | JVal.jb b => (if b then (1 : Int) else 0) == n
  | _ => false

/-- Python `v == s` for a string literal `s`. -/
def pyEqStr (v : JVal) (s : String) : Bool :=
  match v with
  | JVal.js t => t == s
  | _ => false

/-- A note record as stored in `notes.json` (`NotesManager.create_note`). -/
structure Note where
  id : Int
  title : String
  content : String
  created : String
deriving DecidableEq, Repr

/-- `NotesManager.get_note(note_id)`: scan the list and return the first
note whose `id` matches, else `None`. -/
def getNote : List Note → Int → Option Note
  | [], _ => none
  | n :: rest, i => if n.id = i then some n else getNote rest i

/-- `NotesManager.update_note(note_id, title, content)`: scan for the first
matching note, overwrite its title and content in place and stop.
`some notes'` models the `True` return (with the mutated list);
`none` models the `False` return (nothing was written). -/
def updateNoteList : List Note → Int → String → String → Option (List Note)
  | [], _, _, _ => none
  | n :: rest, i, t, c =>
      if n.id = i then some ({ n with title := t, content := c } :: rest)
      else
        match updateNoteList rest i t c with
        | some rest' => some (n :: rest')
        | none => none

/-- `NotesManager.delete_note(note_id)`: keep exactly the notes whose `id`
differs (`[n for n in self.notes if n['id'] != note_id]`). -/
def deleteNote (notes : List Note) (i : Int) : List Note :=
  notes.filter (fun n => n.id != i)

/-- The Notes Store state: the in-memory list and the parsed content of
`notes.json` (`_save_notes` writes `self.notes`; reloading a saved file
yields the same list). -/
structure NMState where
  notes : List Note
  file : List Note
deriving DecidableEq, Repr

/-- One Notes Store operation.  `create` carries the timestamp string that
`datetime.now().strftime(...)` would produce. -/
inductive NotesOp where
  | create : String → String → String → NotesOp
  | update : Int → String → String → NotesOp
  | delete : Int → NotesOp

/-- Apply one Notes Store operation, mirroring `create_note`,
`update_note` and `delete_note` including exactly when `_save_notes`
runs (`update_note` does not save when no note matches). -/
def applyNotesOp (s : NMState) : NotesOp → NMState
  | NotesOp.create t c ts =>
      let note : Note := { id := (s.notes.length : Int) + 1, title := t, content := c, created := ts }
      let notes' := s.notes ++ [note]
      { notes := notes', file := notes' }
  | NotesOp.update i t c =>
      match updateNoteList s.notes i t c with
      | some notes' => { notes := notes', file := notes' }
      | none => s
  | NotesOp.delete i =>
      let notes' := deleteNote s.notes i
      { notes := notes', file := notes' }

/-- Apply a sequence of Notes Store operations, oldest first. -/
def runNotesOps (s : NMState) (ops : List NotesOp) : NMState :=
  ops.foldl applyNotesOp s

/-- A decoded key event, as appended to the buffer by
`KeyboardInput._read_keys`: a single character, or one of the named
tokens for ENTER, ESC, BACKSPACE and the four arrows. -/
inductive Key where
  | ch : Char → Key
  | enter : Key
  | esc : Key
  | backspace : Key
  | up : Key
  | down : Key
  | left : Key
  | right : Key
deriving DecidableEq, Repr

/-- `CreateNoteApp.get_text_input(prompt, max_length)` run on a finite
stream of key events with accumulator `text` (initially `""` at the call
site).  `some r` is the function returning with result `r` (`some s` for
ENTER, `none` for ESC); the outer `none` means the stream was exhausted
while the loop was still waiting for keys.  A named multi-character token
other than ENTER/ESC/BACKSPACE fails the `len(key) == 1` test and is
ignored; BACKSPACE on an empty accumulator falls through both guards and
is ignored; a character is appended only while `len(text) < max_length`.
(`SettingsApp.get_text_input` is a verbatim copy of the same loop.) -/
def getTextInput (maxLength : Nat) : List Key → String → Option (Option String)
  | [], _ => none
  | k :: ks, text =>
      match k with
      | Key.enter => some (some text)
      | Key.esc => some none
      | Key.backspace =>
          getTextInput maxLength ks (if text.length > 0 then text.dropRight 1 else text)
      | Key.ch c =>
          getTextInput maxLength ks (if text.length < maxLength then text.push c else text)
      | _ => getTextInput maxLength ks text

/-- The screens `MainMenuApp.run` can transfer control to. -/
inductive MenuTransition where
  | clock : MenuTransition
  | notesMenu : MenuTransition
  | weather : MenuTransition
  | settings : MenuTransition
deriving DecidableEq, Repr

/-- One iteration of the `MainMenuApp.run` dispatch on a key event:
the new value of `self.selected` and the transition token returned, if
any.  Navigation is on the characters w/s/a/d; `key in '12345678'` is
Python substring membership, so only single digit characters select
directly; ENTER returns a screen name for slots 1, 2, 7, 8 and shows a
transient "Coming Soon" overlay (no transition) otherwise; ESC returns
to the clock.  Any other key, including the named arrow tokens UP, DOWN,
LEFT, RIGHT, matches no branch and changes nothing. -/
def mainMenuStep (key : Key) (selected : Nat) : Nat × Option MenuTransition :=
  match key with
  | Key.ch 'w' => (if 4 ≤ selected then selected - 4 else selected, none)
  | Key.ch 's' => (if selected < 4 then selected + 4 else selected, none)
  | Key.ch 'a' => (if selected % 4 ≠ 0 then selected - 1 else selected, none)
  | Key.ch 'd' => (if selected % 4 ≠ 3 then selected + 1 else selected, none)
  | Key.ch c =>
      if ("12345678".toList.contains c) then (c.toNat - 48 - 1, none)
      else (selected, none)
  | Key.enter =>
      match selected + 1 with
      | 1 => (selected, some MenuTransition.clock)
      | 2 => (selected, some MenuTransition.notesMenu)
      | 7 => (selected, some MenuTransition.weather)
      | 8 => (selected, some MenuTransition.settings)
      | _ => (selected, none)
  | Key.esc => (selected, some MenuTransition.clock)
  | _ => (selected, none)

/-- Outcome of the one `requests.get` call in `WeatherApp.get_weather`:
the request raised (connection error or timeout), or a response arrived
with a status code and a body that either parses as JSON (`some j`, what
`response.json()` returns) or raises on parsing (`none`). -/
inductive FetchOutcome where
  | netError : FetchOutcome
  | response : Int → Option JVal → FetchOutcome

/-- `WeatherApp.get_weather`: inside `try`, issue the request; on a 200
status return `response.json()`; any exception (network failure, timeout,
JSON parse failure) is caught and logged; every path other than a
successfully parsed 200 response falls through to `return None`. -/
def getWeather : FetchOutcome → Option JVal
  | FetchOutcome.netError => none
  | FetchOutcome.response status parsed =>
      if status = 200 then
        match parsed with
        | some j => some j
        | none => none
      else none

/-- `SettingsApp.toggle_setting(setting_name)`, restricted to its effect on
the settings map.  The six finite-choice rows read the current value with
the code's default and store the next value via `set_setting`.  The
remaining rows (`ZIP Code`, `Display Info`, `Factory Reset`) run
interactive sub-screens instead of editing the map in this dispatch
(`Factory Reset`'s confirmed action is `reset_to_defaults`, modelled by
`resetToDefaults`), so here they leave the map unchanged, as does an
unknown name. -/
def toggleSetting (d : Dict) (settingName : String) : Dict :=
  if settingName = "Dark/Light Mode" then
    setSetting d "dark_mode" (pyNot (getSetting d "dark_mode" (JVal.jb true)))
  else if settingName = "Clock Format" then
    setSetting d "clock_format"
      (if pyEqInt (getSetting d "clock_format" (JVal.ji 12)) 12 then JVal.ji 24 else JVal.ji 12)
  else if settingName = "Date Format" then
    let formats : List String := ["long", "short", "iso"]
    let current := getSetting d "date_format" (JVal.js "long")
    let idx := (formats.findIdx? (fun f => pyEqStr current f)).getD 0
    let nextIdx := (idx + 1) % formats.length
    setSetting d "date_format" (JVal.js (formats.getD nextIdx ""))
  else if settingName = "Refresh Mode" then
    setSetting d "refresh_mode"
      (if pyEqStr (getSetting d "refresh_mode" (JVal.js "partial")) "partial" then JVal.js "full"
       else JVal.js "partial")
  else if settingName = "Auto-Sleep Timer" then
    let timers : List Int := [0, 5, 10, 30, 60]
    let current := getSetting d "auto_sleep" (JVal.ji 0)
    let idx := (timers.findIdx? (fun n => pyEqInt current n)).getD 0
    let nextIdx := (idx + 1) % timers.length
    setSetting d "auto_sleep" (JVal.ji (timers.getD nextIdx 0))
  else if settingName = "Show Seconds" then
    setSetting d "show_seconds" (pyNot (getSetting d "show_seconds" (JVal.jb false)))
  else d

/-- The six finite-choice settings rows of the Settings screen. -/
inductive FiniteSetting where
  | darkMode : FiniteSetting
  | clockFormat : FiniteSetting
  | dateFormat : FiniteSetting
  | refreshMode : FiniteSetting
  | autoSleep : FiniteSetting
  | showSeconds : FiniteSetting
deriving DecidableEq, Repr

/-- The option label `SettingsApp.run` passes to `toggle_setting`. -/
def FiniteSetting.menuName : FiniteSetting → String
  | darkMode => "Dark/Light Mode"
  | clockFormat => "Clock Format"
  | dateFormat => "Date Format"
  | refreshMode => "Refresh Mode"
  | autoSleep => "Auto-Sleep Timer"
  | showSeconds => "Show Seconds"

/-- The settings key the row edits. -/
def FiniteSetting.settingKey : FiniteSetting → String
  | darkMode => "dark_mode"
  | clockFormat => "clock_format"
  | dateFormat => "date_format"
  | refreshMode => "refresh_mode"
  | autoSleep => "auto_sleep"
  | showSeconds => "show_seconds"

/-- The default `toggle_setting` passes to `get_setting` for the row. -/
def FiniteSetting.codeDefault : FiniteSetting → JVal
  | darkMode => JVal.jb true
  | clockFormat => JVal.ji 12
  | dateFormat => JVal.js "long"
  | refreshMode => JVal.js "partial"
  | autoSleep => JVal.ji 0
  | showSeconds => JVal.jb false

/-- The row's defined choice set, in the cycling order of the code. -/
def FiniteSetting.choices : FiniteSetting → List JVal
  | darkMode => [JVal.jb true, JVal.jb false]
  | clockFormat => [JVal.ji 12, JVal.ji 24]
  | dateFormat => [JVal.js "long", JVal.js "short", JVal.js "iso"]
  | refreshMode => [JVal.js "partial", JVal.js "full"]
  | autoSleep => [JVal.ji 0, JVal.ji 5, JVal.ji 10, JVal.ji 30, JVal.ji 60]
  | showSeconds => [JVal.jb false, JVal.jb true]

/-- The value `toggle_setting` stores for the row, as a function of the
value it read (extracted from the branches of `toggleSetting`). -/
def FiniteSetting.step : FiniteSetting → JVal → JVal
  | darkMode, v => pyNot v
  | clockFormat, v => if pyEqInt v 12 then JVal.ji 24 else JVal.ji 12
  | dateFormat, v =>
      JVal.js ((["long", "short", "iso"] : List String).getD
        (((((["long", "short", "iso"] : List String).findIdx?
            (fun f => pyEqStr v f)).getD 0) + 1) % 3) "")
  | refreshMode, v =>
      if pyEqStr v "partial" then JVal.js "full" else JVal.js "partial"
  | autoSleep, v =>
      JVal.ji (([0, 5, 10, 30, 60] : List Int).getD
        ((((([0, 5, 10, 30, 60] : List Int).findIdx?
            (fun n => pyEqInt v n)).getD 0) + 1) % 5) 0)
  | showSeconds, v => pyNot v

theorem dictGet_dictSet_self (d : Dict) (k : String) (v : JVal) :
    dictGet (dictSet d k v) k = some v := by
  induction d with
  | nil => simp [dictSet, dictGet]
  | cons kv rest ih =>
      obtain ⟨k', v'⟩ := kv
      by_cases h : k' = k
      · subst h; simp [dictSet, dictGet]
      · simp [dictSet, dictGet, h, ih]

theorem dictGet_dictSet_ne (d : Dict) (k k' : String) (v : JVal) (h : k' ≠ k) :
    dictGet (dictSet d k v) k' = dictGet d k' := by
  induction d with
  | nil => simp [dictSet, dictGet, Ne.symm h]
  | cons kv rest ih =>
      obtain ⟨k0, v0⟩ := kv
      by_cases h0 : k0 = k
      · subst h0; simp [dictSet, dictGet, Ne.symm h]
      · simp [dictSet, dictGet, h0, ih]

theorem mem_dictKeys_dictSet_of_mem (d : Dict) (k k' : String) (v : JVal)
    (h : k' ∈ dictKeys d) : k' ∈ dictKeys (dictSet d k v) := by
  induction d with
  | nil => simp [dictKeys] at h
  | cons kv rest ih =>
      obtain ⟨k0, v0⟩ := kv
      by_cases h0 : k0 = k
      · subst h0; simpa [dictSet, dictKeys] using h
      · simp only [dictKeys, List.map_cons, List.mem_cons] at h
        rcases h with h | h
        · simp [dictSet, dictKeys, h0, h]
        · simp only [dictSet, h0, if_false, dictKeys, List.map_cons, List.mem_cons]
          exact Or.inr (ih h)

theorem mem_dictKeys_dictSet_self (d : Dict) (k : String) (v : JVal) :
    k ∈ dictKeys (dictSet d k v) := by
  induction d with
  | nil => simp [dictSet, dictKeys]
  | cons kv rest ih =>
      obtain ⟨k0, v0⟩ := kv
      by_cases h0 : k0 = k
      · subst h0; simp [dictSet, dictKeys]
      · simp only [dictSet, h0, if_false, dictKeys, List.map_cons, List.mem_cons]
        exact Or.inr ih

theorem dictUpdate_nil (d : Dict) : dictUpdate d [] = d := rfl

theorem dictUpdate_cons (d : Dict) (k : String) (v : JVal) (kvs : List (String × JVal)) :
    dictUpdate d ((k, v) :: kvs) = dictUpdate (dictSet d k v) kvs := rfl

theorem mem_dictKeys_dictUpdate_left (d : Dict) (kvs : List (String × JVal)) (k : String)
    (h : k ∈ dictKeys d) : k ∈ dictKeys (dictUpdate d kvs) := by
  induction kvs generalizing d with
  | nil => simpa [dictUpdate] using h
  | cons kv rest ih =>
      obtain ⟨k0, v0⟩ := kv
      rw [dictUpdate_cons]
      exact ih _ (mem_dictKeys_dictSet_of_mem d k0 k v0 h)

theorem mem_dictKeys_dictUpdate_right (d : Dict) (kvs : List (String × JVal)) (k : String)
    (h : k ∈ dictKeys kvs) : k ∈ dictKeys (dictUpdate d kvs) := by
  induction kvs generalizing d with
  | nil => simp [dictKeys] at h
  | cons kv rest ih =>
      obtain ⟨k0, v0⟩ := kv
      rw [dictUpdate_cons]
      simp only [dictKeys, List.map_cons, List.mem_cons] at h
      rcases h with h | h
      · subst h
        exact mem_dictKeys_dictUpdate_left _ rest k (mem_dictKeys_dictSet_self d k v0)
      · exact ih _ h

theorem dictGet_dictUpdate_not_mem (d : Dict) (kvs : List (String × JVal)) (k : String)
    (h : k ∉ dictKeys kvs) : dictGet (dictUpdate d kvs) k = dictGet d k := by
  induction kvs generalizing d with
  | nil => rfl
  | cons kv rest ih =>
      obtain ⟨k0, v0⟩ := kv
      simp only [dictKeys, List.map_cons, List.mem_cons, not_or] at h
      rw [dictUpdate_cons, ih _ (fun hh => h.2 hh), dictGet_dictSet_ne _ _ _ _ h.1]

theorem dictGet_dictUpdate_mem (d : Dict) (kvs : List (String × JVal)) (k : String) (v : JVal)
    (hnd : (dictKeys kvs).Nodup) (h : (k, v) ∈ kvs) :
    dictGet (dictUpdate d kvs) k = some v := by
  induction kvs generalizing d with
  | nil => simp at h
  | cons kv rest ih =>
      obtain ⟨k0, v0⟩ := kv
      simp only [dictKeys, List.map_cons, List.nodup_cons] at hnd
      rcases List.mem_cons.mp h with h | h
      · simp only [Prod.mk.injEq] at h
        obtain ⟨rfl, rfl⟩ := h
        rw [dictUpdate_cons, dictGet_dictUpdate_not_mem _ rest k hnd.1,
          dictGet_dictSet_self]
      · rw [dictUpdate_cons]
        exact ih _ hnd.2 h

theorem getSetting_setSetting_self (d : Dict) (k : String) (v dflt : JVal) :
    getSetting (setSetting d k v) k dflt = v := by
  simp [getSetting, setSetting, dictGet_dictSet_self]

theorem applyNotesOp_file_eq (s : NMState) (op : NotesOp) (h : s.file = s.notes) :
    (applyNotesOp s op).file = (applyNotesOp s op).notes := by
  cases op with
  | create t c ts => rfl
  | update i t c =>
      cases hu : updateNoteList s.notes i t c <;> simp [applyNotesOp, hu, h]
  | delete i => rfl

theorem runNotesOps_file_eq (s : NMState) (ops : List NotesOp) (h : s.file = s.notes) :
    (runNotesOps s ops).file = (runNotesOps s ops).notes := by
  induction ops generalizing s with
  | nil => exact h
  | cons op rest ih => exact ih _ (applyNotesOp_file_eq s op h)

theorem toggleSetting_get (s : FiniteSetting) (d : Dict) :
    getSetting (toggleSetting d s.menuName) s.settingKey s.codeDefault
      = s.step (getSetting d s.settingKey s.codeDefault) := by
  cases s <;>
    simp [toggleSetting, FiniteSetting.menuName, FiniteSetting.settingKey,
      FiniteSetting.codeDefault, FiniteSetting.step, getSetting_setSetting_self]

theorem iterToggle_get (s : FiniteSetting) (n : Nat) (d : Dict) :
    getSetting ((fun x => toggleSetting x s.menuName)^[n] d) s.settingKey s.codeDefault
      = (s.step)^[n] (getSetting d s.settingKey s.codeDefault) := by
  induction n with
  | zero => rfl
  | succ n ih =>
      simp only [Function.iterate_succ_apply']
      rw [toggleSetting_get, ih]

/-- C1: for every sequence of `create_note`, `update_note` and
`delete_note` operations on a Notes Store whose in-memory list was loaded
from the current file, after each call the notes file, reloaded, equals
the in-memory list exactly (same records, same order).  Quantifying over
all operation sequences covers the state after every individual call,
since every prefix of a sequence is itself a sequence. -/
theorem notes_file_matches_memory (f : List Note) (ops : List NotesOp) :
    (runNotesOps { notes := f, file := f } ops).file
      = (runNotesOps { notes := f, file := f } ops).notes :=
  runNotesOps_file_eq _ ops rfl

/-- C3: after `reset_to_defaults()`, `get_setting(key)` (default `None`)
returns exactly the hardcoded default for every default key. -/
theorem reset_restores_hardcoded_defaults (d : Dict) :
    getSetting (resetToDefaults d) "dark_mode" JVal.jnull = JVal.jb true
  ∧ getSetting (resetToDefaults d) "clock_format" JVal.jnull = JVal.ji 12
  ∧ getSetting (resetToDefaults d) "date_format" JVal.jnull = JVal.js "long"
  ∧ getSetting (resetToDefaults d) "refresh_mode" JVal.jnull = JVal.js "partial"
  ∧ getSetting (resetToDefaults d) "auto_sleep" JVal.jnull = JVal.ji 0
  ∧ getSetting (resetToDefaults d) "show_seconds" JVal.jnull = JVal.jb false
  ∧ getSetting (resetToDefaults d) "zip_code" JVal.jnull = JVal.js "" :=
  ⟨rfl, rfl, rfl, rfl, rfl, rfl, rfl⟩

/-- C4: creating two notes, deleting the note with id 1, then creating a
third note leaves two distinct notes that share id 2, because
`create_note` assigns `len(self.notes) + 1`. -/
theorem duplicate_note_ids_after_delete :
    (runNotesOps { notes := [], file := [] }
        [NotesOp.create "a" "x" "t1", NotesOp.create "b" "y" "t2",
         NotesOp.delete 1, NotesOp.create "c" "z" "t3"]).notes
      = [{ id := 2, title := "b", content := "y", created := "t2" },
         { id := 2, title := "c", content := "z", created := "t3" }]
  ∧ ({ id := 2, title := "b", content := "y", created := "t2" } : Note)
      ≠ { id := 2, title := "c", content := "z", created := "t3" }
  ∧ ({ id := 2, title := "b", content := "y", created := "t2" } : Note).id
      = ({ id := 2, title := "c", content := "z", created := "t3" } : Note).id := by
  refine ⟨by decide, by decide, rfl⟩

/-- C10: `set_setting(k, v)` changes only entry `k`: every other key reads
the same value as before (for any read default), and no key is removed
from the map. -/
theorem set_setting_frame (d : Dict) (k k' : String) (v dflt : JVal) (h : k' ≠ k) :
    getSetting (setSetting d k v) k' dflt = getSetting d k' dflt
  ∧ dictKeys d ⊆ dictKeys (setSetting d k v) := by
  refine ⟨?_, ?_⟩
  · simp [getSetting, setSetting, dictGet_dictSet_ne d k k' v h]
  · intro x hx
    exact mem_dictKeys_dictSet_of_mem d k x v hx

theorem set_setting_frame_witness :
    ("zip_code" : String) ≠ "dark_mode"
  ∧ (getSetting (setSetting loadDefaults "dark_mode" (JVal.jb false)) "zip_code" JVal.jnull
       = getSetting loadDefaults "zip_code" JVal.jnull
     ∧ dictKeys loadDefaults
         ⊆ dictKeys (setSetting loadDefaults "dark_mode" (JVal.jb false))) :=
  ⟨by decide,
   set_setting_frame loadDefaults "dark_mode" "zip_code" (JVal.jb false) JVal.jnull
     (by decide)⟩

/-- C7: every default key is present in the map produced by
`_load_settings` for any file state (missing, unreadable, or arbitrary
JSON), and stays present under every subsequent sequence of
`set_setting` and `reset_to_defaults` calls; moreover load keeps every
key found in an on-disk object alongside the defaults, with its loaded
value (keys of a parsed JSON object are distinct). -/
theorem settings_default_keys_invariant :
    (∀ fs : FileState, ∀ ops : List SettingsOp, ∀ k : String,
        k ∈ dictKeys loadDefaults →
          k ∈ dictKeys (runSettingsOps (loadSettings fs) ops))
  ∧ (∀ kvs : List (String × JVal), ∀ k : String,
        k ∈ dictKeys kvs →
          k ∈ dictKeys (loadSettings (FileState.content (JVal.jobj kvs))))
  ∧ (∀ kvs : List (String × JVal), ∀ k : String, ∀ v : JVal,
        (dictKeys kvs).Nodup → (k, v) ∈ kvs →
          dictGet (loadSettings (FileState.content (JVal.jobj kvs))) k = some v) := by
  have hload : ∀ fs : FileState, ∀ k : String,
      k ∈ dictKeys loadDefaults → k ∈ dictKeys (loadSettings fs) := by
    intro fs k hk
    cases fs with
    | missing => exact hk
    | unreadable => exact hk
    | content j =>
        cases j with
        | jobj kvs => exact mem_dictKeys_dictUpdate_left _ kvs k hk
        | jnull => exact hk
        | jb b => exact hk
        | ji n => exact hk
        | js s => exact hk
        | jarr xs => exact hk
  have hops : ∀ (ops : List SettingsOp) (d : Dict) (k : String),
      k ∈ dictKeys loadDefaults → k ∈ dictKeys d →
        k ∈ dictKeys (runSettingsOps d ops) := by
    intro ops
    induction ops with
    | nil => intro d k _ hd; exact hd
    | cons op rest ih =>
        intro d k hdef hd
        cases op with
        | setOp k0 v0 =>
            exact ih _ k hdef (mem_dictKeys_dictSet_of_mem d k0 k v0 hd)
        | resetOp =>
            exact ih _ k hdef hdef
  refine ⟨?_, ?_, ?_⟩
  · intro fs ops k hk
    exact hops ops _ k hk (hload fs k hk)
  · intro kvs k hk
    exact mem_dictKeys_dictUpdate_right loadDefaults kvs k hk
  · intro kvs k v hnd hkv
    exact dictGet_dictUpdate_mem loadDefaults kvs k v hnd hkv

theorem settings_default_keys_invariant_witness :
    ("dark_mode" : String) ∈ dictKeys loadDefaults
  ∧ ("dark_mode" : String) ∈ dictKeys
      (runSettingsOps (loadSettings FileState.missing)
        [SettingsOp.setOp "zip_code" (JVal.js "02139"), SettingsOp.resetOp])
  ∧ ("theme" : String)
      ∈ dictKeys (loadSettings (FileState.content (JVal.jobj [("theme", JVal.js "blue")])))
  ∧ dictGet (loadSettings (FileState.content (JVal.jobj [("theme", JVal.js "blue")]))) "theme"
      = some (JVal.js "blue") :=
  ⟨by decide,
   settings_default_keys_invariant.1 FileState.missing
     [SettingsOp.setOp "zip_code" (JVal.js "02139"), SettingsOp.resetOp] "dark_mode"
     (by decide),
   settings_default_keys_invariant.2.1 [("theme", JVal.js "blue")] "theme" (by decide),
   settings_default_keys_invariant.2.2 [("theme", JVal.js "blue")] "theme" (JVal.js "blue")
     (by decide) (List.mem_cons_self _ _)⟩

/-- C6: for every finite-choice setting, if its current value is one of
the setting's defined choices, applying the Settings screen's edit
action (`toggle_setting`) exactly N times, where N is the number of
choices for that setting, returns the setting to its original value. -/
theorem finite_setting_cycle (s : FiniteSetting) (d : Dict)
    (h : getSetting d s.settingKey s.codeDefault ∈ s.choices) :
    getSetting ((fun x => toggleSetting x s.menuName)^[s.choices.length] d)
        s.settingKey s.codeDefault
      = getSetting d s.settingKey s.codeDefault := by
  rw [iterToggle_get]
  have key : ∀ v ∈ s.choices, (s.step)^[s.choices.length] v = v := by
    cases s <;> (intro v hv; fin_cases hv <;> rfl)
  exact key _ h

theorem finite_setting_cycle_witness :
    getSetting loadDefaults FiniteSetting.dateFormat.settingKey
        FiniteSetting.dateFormat.codeDefault ∈ FiniteSetting.dateFormat.choices
  ∧ getSetting
        ((fun x => toggleSetting x FiniteSetting.dateFormat.menuName)^[
          FiniteSetting.dateFormat.choices.length] loadDefaults)
        FiniteSetting.dateFormat.settingKey FiniteSetting.dateFormat.codeDefault
      = getSetting loadDefaults FiniteSetting.dateFormat.settingKey
          FiniteSetting.dateFormat.codeDefault :=
  ⟨List.mem_cons_self _ _,
   finite_setting_cycle FiniteSetting.dateFormat loadDefaults (List.mem_cons_self _ _)⟩

/-- C9: when the list decomposes as `pre ++ n :: post` with no match in
`pre` and `n.id = i` (in particular when several notes share id `i`),
`get_note(i)` returns only the first match `n`, `update_note(i, t, c)`
rewrites only that first match and leaves `post` untouched even if it
contains further matches, and `delete_note(i)` removes every matching
note while keeping all of `pre`. -/
theorem duplicate_id_first_match (pre post : List Note) (n : Note) (i : Int)
    (t c : String) (hpre : ∀ m ∈ pre, m.id ≠ i) (hn : n.id = i) :
    getNote (pre ++ n :: post) i = some n
  ∧ updateNoteList (pre ++ n :: post) i t c
      = some (pre ++ { n with title := t, content := c } :: post)
  ∧ deleteNote (pre ++ n :: post) i = pre ++ deleteNote post i
  ∧ (∀ m ∈ deleteNote (pre ++ n :: post) i, m.id ≠ i) := by
  have main : ∀ pre' : List Note, (∀ m ∈ pre', m.id ≠ i) →
      getNote (pre' ++ n :: post) i = some n
    ∧ updateNoteList (pre' ++ n :: post) i t c
        = some (pre' ++ { n with title := t, content := c } :: post)
    ∧ deleteNote (pre' ++ n :: post) i = pre' ++ deleteNote post i := by
    intro pre'
    induction pre' with
    | nil =>
        intro _
        refine ⟨?_, ?_, ?_⟩
        · simp [getNote, hn]
        · simp [updateNoteList, hn]
        · simp [deleteNote, List.filter_cons, hn]
    | cons p rest ih =>
        intro hpre'
        have hp : p.id ≠ i := hpre' p (List.mem_cons_self _ _)
        obtain ⟨ih1, ih2, ih3⟩ := ih (fun m hm => hpre' m (List.mem_cons_of_mem _ hm))
        refine ⟨?_, ?_, ?_⟩
        · simpa [getNote, hp] using ih1
        · simp only [List.cons_append, updateNoteList, hp, if_false, List.append_eq, ih2]
        · simpa [deleteNote, List.filter_cons, bne_iff_ne, hp] using ih3
  obtain ⟨h1, h2, h3⟩ := main pre hpre
  refine ⟨h1, h2, h3, ?_⟩
  intro m hm
  simp only [deleteNote, List.mem_filter, bne_iff_ne] at hm
  exact hm.2

theorem duplicate_id_first_match_witness :
    (∀ m ∈ [({ id := 7, title := "a", content := "x", created := "t0" } : Note)],
        m.id ≠ (2 : Int))
  ∧ ({ id := 2, title := "b", content := "y", created := "t1" } : Note).id = (2 : Int)
  ∧ (getNote
        ([{ id := 7, title := "a", content := "x", created := "t0" }]
          ++ { id := 2, title := "b", content := "y", created := "t1" }
            :: [{ id := 2, title := "c", content := "z", created := "t2" }]) 2
      = some { id := 2, title := "b", content := "y", created := "t1" }
    ∧ updateNoteList
        ([{ id := 7, title := "a", content := "x", created := "t0" }]
          ++ { id := 2, title := "b", content := "y", created := "t1" }
            :: [{ id := 2, title := "c", content := "z", created := "t2" }]) 2 "B" "Y"
      = some
          ([{ id := 7, title := "a", content := "x", created := "t0" }]
            ++ { ({ id := 2, title := "b", content := "y", created := "t1" } : Note) with
                  title := "B", content := "Y" }
              :: [{ id := 2, title := "c", content := "z", created := "t2" }])
    ∧ deleteNote
        ([{ id := 7, title := "a", content := "x", created := "t0" }]
          ++ { id := 2, title := "b", content := "y", created := "t1" }
            :: [{ id := 2, title := "c", content := "z", created := "t2" }]) 2
      = [{ id := 7, title := "a", content := "x", created := "t0" }]
          ++ deleteNote [{ id := 2, title := "c", content := "z", created := "t2" }] 2
    ∧ (∀ m ∈ deleteNote
          ([{ id := 7, title := "a", content := "x", created := "t0" }]
            ++ { id := 2, title := "b", content := "y", created := "t1" }
              :: [{ id := 2, title := "c", content := "z", created := "t2" }]) 2,
        m.id ≠ (2 : Int))) :=
  ⟨by decide, by decide,
   duplicate_id_first_match
     [{ id := 7, title := "a", content := "x", created := "t0" }]
     [{ id := 2, title := "c", content := "z", created := "t2" }]
     { id := 2, title := "b", content := "y", created := "t1" } 2 "B" "Y"
     (by decide) (by decide)⟩

/-- C5: the text-input sub-loop accumulates single-character keys only up
to the caller's maximum length, BACKSPACE removes the last accumulated
character and is a no-op on an empty accumulator, ENTER returns the
accumulated string (possibly empty), and ESC returns the distinct
"no value" result, which differs from returning an empty string. -/
theorem text_input_contract (maxL : Nat) (ks : List Key) (text : String) (c : Char) :
    getTextInput maxL (Key.enter :: ks) text = some (some text)
  ∧ getTextInput maxL (Key.esc :: ks) text = some none
  ∧ getTextInput maxL (Key.backspace :: ks) text
      = getTextInput maxL ks (if text.length > 0 then text.dropRight 1 else text)
  ∧ getTextInput maxL (Key.ch c :: ks) text
      = getTextInput maxL ks (if text.length < maxL then text.push c else text)
  ∧ getTextInput maxL (Key.esc :: ks) text ≠ getTextInput maxL (Key.enter :: ks) ""
  ∧ getTextInput maxL (Key.backspace :: ks) "" = getTextInput maxL ks "" :=
  ⟨rfl, rfl, rfl, rfl, by simp [getTextInput], rfl⟩

/-- C2 counterexample: on the MainMenu screen with the cursor on slot 0
(top row), the named DOWN key event leaves the selection at 0 and causes
no transition, whereas the claim requires it to move to the second row
(slot 4): the menu loop only matches the characters w/s/a/d. -/
theorem arrow_keys_ignored_on_main_menu :
    mainMenuStep Key.down 0 = (0, none) ∧ (mainMenuStep Key.down 0).1 ≠ 4 := by
  decide

/-- C2 amended: on the MainMenu screen the navigation keys are the
characters w/s/a/d, not the named arrow events: for a selection inside
the 2x4 grid, w moves up a row exactly when the cursor is in the bottom
row, s moves down exactly when it is in the top row, a and d move
between columns without wrapping, none of them produces a transition,
and the named UP, DOWN, LEFT and RIGHT events leave the screen entirely
unchanged. -/
theorem main_menu_wasd_navigation (sel : Nat) (h : sel < 8) :
    mainMenuStep (Key.ch 'w') sel = (if sel / 4 = 1 then sel - 4 else sel, none)
  ∧ mainMenuStep (Key.ch 's') sel = (if sel / 4 = 0 then sel + 4 else sel, none)
  ∧ mainMenuStep (Key.ch 'a') sel = (if sel % 4 ≠ 0 then sel - 1 else sel, none)
  ∧ mainMenuStep (Key.ch 'd') sel = (if sel % 4 ≠ 3 then sel + 1 else sel, none)
  ∧ mainMenuStep Key.up sel = (sel, none)
  ∧ mainMenuStep Key.down sel = (sel, none)
  ∧ mainMenuStep Key.left sel = (sel, none)
  ∧ mainMenuStep Key.right sel = (sel, none) := by
  interval_cases sel <;> decide

theorem main_menu_wasd_navigation_witness :
    (5 : Nat) < 8
  ∧ (mainMenuStep (Key.ch 'w') 5 = (if 5 / 4 = 1 then 5 - 4 else 5, none)
    ∧ mainMenuStep (Key.ch 's') 5 = (if 5 / 4 = 0 then 5 + 4 else 5, none)
    ∧ mainMenuStep (Key.ch 'a') 5 = (if 5 % 4 ≠ 0 then 5 - 1 else 5, none)
    ∧ mainMenuStep (Key.ch 'd') 5 = (if 5 % 4 ≠ 3 then 5 + 1 else 5, none)
    ∧ mainMenuStep Key.up 5 = (5, none)
    ∧ mainMenuStep Key.down 5 = (5, none)
    ∧ mainMenuStep Key.left 5 = (5, none)
    ∧ mainMenuStep Key.right 5 = (5, none)) :=
  ⟨by decide, main_menu_wasd_navigation 5 (by decide)⟩

/-- C8: `get_weather` is modelled as a total function into `Option`:
every outcome of the one request (network error, timeout, non-200
status, parse failure) yields the unavailable result `none` rather than
a propagated exception, and it returns parsed data exactly on a 200
response whose body parses. -/
theorem weather_unavailable_instead_of_raising (r : FetchOutcome) (j : JVal) :
    getWeather r = some j ↔ r = FetchOutcome.response 200 (some j) := by
  cases r with
  | netError => simp [getWeather]
  | response status parsed =>
      cases parsed with
      | none =>
          simp [getWeather]
      | some j' =>
          by_cases hs : status = 200
          · subst hs
            simp [getWeather]
          · simp [getWeather, hs]
